import Mathlib

/-
Shallow embedding of the write-ahead log in src/mineral/src/wal.rs.

Byte buffers are modelled as `List Nat` (each element a byte value), machine
integers as `Nat` with explicit `% 2 ^ w` at the points where the source casts
or where fixed-width arithmetic can wrap.  Code that can panic is modelled with
`Option` (`none` = panic); fallible code returns `Except Error`.

The crates `crate::cvt` and `crate::state` are not under src/; their operations
are modelled from the spec (sections 4.1, 6) and are marked as such below.
-/

/-- Header length constant HEADER_LEN from wal.rs (7 bytes). -/
def HEADER_LEN : Nat := 7

/-- Frame kind code STYPE_FULL. -/
def STYPE_FULL : Nat := 4

/-- Frame kind code STYPE_FIRST. -/
def STYPE_FIRST : Nat := 1

/-- Frame kind code STYPE_MIDDLE. -/
def STYPE_MIDDLE : Nat := 2

/-- Frame kind code STYPE_LAST. -/
def STYPE_LAST : Nat := 3

/-- Page size: the page_size field set in Wlog::new (32768 bytes). -/
def PAGE_SIZE : Nat := 32768

/-- Reflected polynomial of CRC-32 (IEEE), as used by the crc32fast crate. -/
def crcPoly : Nat := 0xEDB88320

/-- One bit step of the reflected CRC-32 computation. -/
def crcStepBit (c : Nat) : Nat :=
  if c % 2 = 1 then Nat.xor (c / 2) crcPoly else c / 2

/-- Iterate the CRC bit step. -/
def crcBits : Nat → Nat → Nat
  | 0, c => c
  | n + 1, c => crcBits n (crcStepBit c)

/-- Absorb one byte into the CRC-32 state. -/
def crcStepByte (c b : Nat) : Nat := crcBits 8 (Nat.xor c (b % 256))

/-- Frame header struct Header from wal.rs: crc32 (u32), dlen (u16), stype (u8). -/
structure Header where
  crc32 : Nat
  dlen : Nat
  stype : Nat
deriving DecidableEq

/-- Frame struct Entry from wal.rs: a header plus the payload bytes. -/
structure Entry where
  header : Header
  payload : List Nat
deriving DecidableEq

/-- Entry::checksum: CRC32 of the payload bytes (crc32fast Hasher). -/
def Entry.checksum (buf : List Nat) : Nat :=
  Nat.xor (buf.foldl crcStepByte 0xFFFFFFFF) 0xFFFFFFFF

/-- Error kinds of wal.rs that this embedding reaches. -/
inductive Error where
  | InvalidWalData
  | AppendWalDataFailed
deriving DecidableEq

/-- Modelled from the spec: crate::cvt::case_buf_to_u32 is not under src/.
Entry::encode writes the checksum with to_be_bytes and the spec (sections 4.1
and 8) requires the header fields to round-trip through decode, so the reader
combines the first four bytes big-endian. -/
def case_buf_to_u32 (buf : List Nat) : Nat :=
  buf.foldl (fun a b => a * 256 + b) 0

/-- Modelled from the spec: crate::cvt::case_buf_to_u16 is not under src/.
Big-endian, matching the to_be_bytes writer side (spec sections 4.1 and 8). -/
def case_buf_to_u16 (buf : List Nat) : Nat :=
  buf.foldl (fun a b => a * 256 + b) 0

/-- Modelled from the spec: crate::cvt::case_u64_to_buf is not under src/.
Spec section 6: trailing sequence suffix = 8 bytes little-endian. -/
def case_u64_to_buf (x : Nat) : List Nat :=
  [x % 256, x / 2 ^ 8 % 256, x / 2 ^ 16 % 256, x / 2 ^ 24 % 256,
   x / 2 ^ 32 % 256, x / 2 ^ 40 % 256, x / 2 ^ 48 % 256, x / 2 ^ 56 % 256]

/-- Modelled from the spec: crate::cvt::case_buf_to_u64 is not under src/.
Little-endian inverse of case_u64_to_buf (spec section 6). -/
def case_buf_to_u64 (buf : List Nat) : Nat :=
  buf.foldr (fun b acc => b + 256 * acc) 0

/-- Rust u32::to_be_bytes. -/
def u32ToBeBytes (x : Nat) : List Nat :=
  [x / 2 ^ 24 % 256, x / 2 ^ 16 % 256, x / 2 ^ 8 % 256, x % 256]

/-- Rust u16::to_be_bytes. -/
def u16ToBeBytes (x : Nat) : List Nat :=
  [x / 2 ^ 8 % 256, x % 256]

/-- Entry::new: checksum over the payload, length cast to u16 (may truncate),
and the given kind code. -/
def Entry.new (stype : Nat) (payload : List Nat) : Entry :=
  { header := { crc32 := Entry.checksum payload
                dlen := payload.length % 65536
                stype := stype }
    payload := payload }

/-- Entry::to_header: parse crc32 from bytes 0..4, dlen from bytes 4..6, stype
from byte 6.  Callers guarantee at least 7 bytes; the byte-6 access is modelled
with getD. -/
def Entry.to_header (buf : List Nat) : Header :=
  { crc32 := case_buf_to_u32 (buf.take 4)
    dlen := case_buf_to_u16 ((buf.drop 4).take 2)
    stype := buf.getD 6 0 }

/-- Entry::decode.  `none` models a Rust panic: the header reads index past the
end for inputs shorter than 7 bytes, and the slice buf[7..data_end_offset]
panics when the u16 sum (dlen + HEADER_LEN) wraps below 7 or runs past the end
of the buffer.  Note the checksum comparison follows the source exactly: the
error is signalled when the computed checksum EQUALS the stored one. -/
def Entry.decode (buf : List Nat) : Option (Except Error Entry) :=
  if buf.length < 7 then none
  else
    let header := Entry.to_header buf
    let dataEndOffset := (header.dlen + 7) % 65536
    if dataEndOffset < 7 ∨ buf.length < dataEndOffset then none
    else
      let entry : Entry := { header := header, payload := (buf.take dataEndOffset).drop 7 }
      if Entry.checksum entry.payload = entry.header.crc32 then
        some (Except.error Error.InvalidWalData)
      else
        some (Except.ok entry)

/-- Entry::to_header_buf: crc32 big-endian, dlen big-endian, then the kind byte. -/
def Entry.to_header_buf (e : Entry) : List Nat :=
  u32ToBeBytes e.header.crc32 ++ u16ToBeBytes e.header.dlen ++ [e.header.stype]

/-- Entry::encode: header bytes followed by the payload bytes. -/
def Entry.encode (e : Entry) : List Nat := e.to_header_buf ++ e.payload

/-- The line `let left_page_size = (self.page_size - active_size % self.page_size)`
of Wlog::append. -/
def leftPage (activeSize : Nat) : Nat := PAGE_SIZE - activeSize % PAGE_SIZE

/-- The fragmentation loop of Wlog::append, returning the emitted frames as
(stype, payload) pairs in emission order; the source encodes each pair with
Entry::new(stype, payload).encode() into one output buffer as it goes.
active_size is a u32, so its advance wraps mod 2 ^ 32 (page arithmetic is
unaffected because 32768 divides 2 ^ 32); the stype state variable starts at 0
and is updated exactly as in the source. -/
def framesLoop (activeSize stype : Nat) (flateBuf : List Nat) : List (Nat × List Nat) :=
  if flateBuf.length < leftPage activeSize then
    [(if stype = 0 then STYPE_FULL else STYPE_LAST, flateBuf)]
  else
    (if stype = 0 then STYPE_FIRST else STYPE_MIDDLE, flateBuf.take (leftPage activeSize)) ::
      framesLoop ((activeSize + leftPage activeSize) % 2 ^ 32)
        (if stype = 0 then STYPE_FIRST else STYPE_MIDDLE) (flateBuf.drop (leftPage activeSize))
termination_by flateBuf.length
decreasing_by
  have h1 : 1 ≤ leftPage activeSize := by unfold leftPage PAGE_SIZE; omega
  simp only [List.length_drop]
  omega

/-- Concatenation, in emission order, of the payloads of a frame list. -/
def framesPayload (frames : List (Nat × List Nat)) : List Nat :=
  frames.foldr (fun f acc => f.2 ++ acc) []

/-- Prefix sums of payload byte counts over a frame list: each element pairs the
frame kind with the cumulative payload bytes up to and including that frame. -/
def cumPayload : List (Nat × List Nat) → Nat → List (Nat × Nat)
  | [], _ => []
  | f :: rest, acc => (f.1, acc + f.2.length) :: cumPayload rest (acc + f.2.length)

/-- Prefix sums of header-plus-payload byte counts over a frame list. -/
def cumHeaderPayload : List (Nat × List Nat) → Nat → List (Nat × Nat)
  | [], _ => []
  | f :: rest, acc =>
    (f.1, acc + HEADER_LEN + f.2.length) :: cumHeaderPayload rest (acc + HEADER_LEN + f.2.length)

/-- A directory of segment files: an association list from segment id (the
numeric suffix of the @wal-<id> file name) to file content.  The storage
collaborator crate::state is not under src/; its operations are modelled from
the spec (section 6) on this structure. -/
abbrev Dir := List (Nat × List Nat)

/-- Look a segment file up by id. -/
def dirLookup : Dir → Nat → Option (List Nat)
  | [], _ => none
  | (k, v) :: rest, n => if k = n then some v else dirLookup rest n

/-- Look a segment file up by id, defaulting to empty content. -/
def dirLookupD (d : Dir) (n : Nat) : List Nat := (dirLookup d n).getD []

/-- Write a segment file, replacing existing content for the same id. -/
def dirInsert : Dir → Nat → List Nat → Dir
  | [], n, v => [(n, v)]
  | (k, w) :: rest, n, v => if k = n then (k, v) :: rest else (k, w) :: dirInsert rest n v

/-- Remove a segment file by id. -/
def dirErase : Dir → Nat → Dir
  | [], _ => []
  | (k, w) :: rest, n => if k = n then dirErase rest n else (k, w) :: dirErase rest n

/-- The ids of the existing segment files (the glob over @wal-*). -/
def dirKeys (d : Dir) : List Nat := d.map (fun e => e.1)

/-- Insertion into an ascending list, used to model Vec::sort. -/
def insertAsc (x : Nat) : List Nat → List Nat
  | [] => [x]
  | y :: ys => if x ≤ y then x :: y :: ys else y :: insertAsc x ys

/-- Ascending sort, modelling list.sort() in Wal::get_log_versions. -/
def sortAsc (l : List Nat) : List Nat := l.foldr insertAsc []

/-- Wal::get_log_versions: ids of the existing segment files sorted ascending,
with [0] pushed when none exist. -/
def getLogVersions (dir : Dir) : List Nat :=
  let list := sortAsc (dirKeys dir)
  if list.length = 0 then [0] else list

/-- The in-memory part of struct Wlog: version and file_size (a u32); the file
contents live in the directory, the page_size field is the constant
PAGE_SIZE. -/
structure Wlog where
  version : Nat
  file_size : Nat
deriving DecidableEq

/-- Wlog::new: open or create the segment file @wal-<seq> (state::new is
modelled from the spec as create-if-absent), then read its size from meta();
the u64 size is cast to u32. -/
def wlogNew (dir : Dir) (seq : Nat) : Dir × Wlog :=
  match dirLookup dir seq with
  | some content => (dir, { version := seq, file_size := content.length % 2 ^ 32 })
  | none => (dirInsert dir seq [], { version := seq, file_size := 0 })

/-- Wlog::get_latest_version: read the final 8 bytes as a little-endian u64.
Rust panics (modelled none) when fewer than 8 bytes come back, which is what
get_from_end(-8) yields on a shorter file (modelled from the spec). -/
def getLatestVersion (file : List Nat) : Option Nat :=
  if 8 ≤ file.length then some (case_buf_to_u64 (file.drop (file.length - 8))) else none

/-- Wlog::new(path, v).get_latest_version(): the probe either finds the file
or creates it empty, in which case the tail read panics; the result equals
reading the looked-up content with empty default. -/
def wlogLatestVersion (dir : Dir) (v : Nat) : Option Nat :=
  getLatestVersion (dirLookupD dir v)

/-- Wlog::append: fragment the buffer with the loop (framesLoop), encode every
frame with Entry::new(..).encode() into one buffer, append that buffer to the
file, and advance file_size (u32) only on success.  The parameter ok models
the outcome of the underlying storage append. -/
def wlogAppend (dir : Dir) (w : Wlog) (buf : List Nat) (ok : Bool) :
    Dir × Wlog × Except Error Unit :=
  let entryBufs := ((framesLoop w.file_size 0 buf).map (fun f => (Entry.new f.1 f.2).encode)).flatten
  if ok then
    (dirInsert dir w.version (dirLookupD dir w.version ++ entryBufs),
     { w with file_size := (w.file_size + entryBufs.length) % 2 ^ 32 },
     Except.ok ())
  else (dir, w, Except.error Error.AppendWalDataFailed)

/-- struct Wal: the u64 sequence counter, rotation configuration and state,
the active segment, and the discovered segment id list.  The path and the
write lock are not modelled (one directory, one thread); the dir field stands
for the files reachable from the path. -/
structure Wal where
  seq : Nat
  file_max_size : Nat
  rotation_live_time : Nat
  rotation_time : Nat
  wlog : Wlog
  log_version_list : List Nat
  dir : Dir
deriving DecidableEq

/-- Wal::init_version. -/
def initVersion (dir : Dir) (logVersionList : List Nat) (activeWlog : Wlog) : Option Nat :=
  if 1 < logVersionList.length ∧ activeWlog.file_size = 0 then
    wlogLatestVersion dir (logVersionList.getD (logVersionList.length - 2) 0)
  else if logVersionList.length = 1 ∧ activeWlog.file_size = 0 then some 0
  else wlogLatestVersion dir activeWlog.version

/-- Wal::new at a given current time (SystemTime::now is passed explicitly);
none models the panic of the init_version unwrap. -/
def walNew (dir : Dir) (now : Nat) : Option Wal :=
  let logVersionList := getLogVersions dir
  let dw := wlogNew dir (logVersionList.getD (logVersionList.length - 1) 0)
  match initVersion dw.1 logVersionList dw.2 with
  | none => none
  | some version => some
      { seq := version
        file_max_size := 4294967295
        rotation_live_time := 1800
        rotation_time := now
        wlog := dw.2
        log_version_list := logVersionList
        dir := dw.1 }

/-- Wal::rotation_log: the source compares the age against rotation_time,
which is set at construction and not updated here; on rotation it pushes the
current (already incremented) seq, closes the active segment (a no-op body in
the source) and opens the segment whose id is seq. -/
def rotationLog (w : Wal) (bufLen now : Nat) : Wal :=
  if w.file_max_size < bufLen + w.wlog.file_size ∨
      (0 < w.rotation_live_time ∧ w.rotation_live_time < now - w.rotation_time) then
    let dw := wlogNew w.dir w.seq
    { w with log_version_list := w.log_version_list ++ [w.seq]
             wlog := dw.2
             dir := dw.1 }
  else w

/-- Wal::append: under the lock, increment the u64 seq, append the 8-byte
little-endian sequence suffix, evaluate the rotation policy against the
resulting length, then delegate to the active segment.  now models
SystemTime::now(), ok the storage outcome of the physical write. -/
def walAppend (w : Wal) (buf : List Nat) (now : Nat) (ok : Bool) : Wal × Except Error Unit :=
  let seq := (w.seq + 1) % 2 ^ 64
  let flateBuf := buf ++ case_u64_to_buf seq
  let w1 := rotationLog { w with seq := seq } flateBuf.length now
  let r := wlogAppend w1.dir w1.wlog flateBuf ok
  ({ w1 with dir := r.1, wlog := r.2.1 }, r.2.2)

/-- Iterated Wal::append over a list of (buffer, now, ok) calls. -/
def walAppendMany (w : Wal) : List (List Nat × Nat × Bool) → Wal
  | [] => w
  | c :: rest => walAppendMany (walAppend w c.1 c.2.1 c.2.2).1 rest

/-- The sequence value each successive append call stamps into the 8-byte
suffix of its record (the incremented seq). -/
def assignedSeqs (w : Wal) : List (List Nat × Nat × Bool) → List Nat
  | [] => []
  | c :: rest => ((w.seq + 1) % 2 ^ 64) :: assignedSeqs (walAppend w c.1 c.2.1 c.2.2).1 rest

/-- The loop body of Wlog::handle_page.  remainBuf is the working clone, pageBuf
the caller's buffer that is drained only when a record completes, chunkDatas
the record reconstruction buffer, pageChunkSize the drained-byte counter, and
acc the (record, version) pairs delivered to the handler so far, in call
order.  none models a Rust panic: the chunk slice runs out of bounds (or its
u16 sum wraps below the header length), or the version split underflows. -/
def chunkSizeOf (remainBuf : List Nat) : Nat :=
  (HEADER_LEN + (Entry.to_header remainBuf).dlen) % 65536

/-- The chunk_data slice remain_buf[HEADER_LEN..chunk_size]. -/
def chunkDataOf (remainBuf : List Nat) : List Nat :=
  (remainBuf.take (chunkSizeOf remainBuf)).drop HEADER_LEN

def handlePageLoop (remainBuf pageBuf chunkDatas : List Nat) (pageChunkSize : Nat)
    (acc : List (List Nat × Nat)) : Option (List (List Nat × Nat) × List Nat) :=
  if remainBuf.length ≤ HEADER_LEN then some (acc, pageBuf)
  else
    if chunkSizeOf remainBuf < HEADER_LEN ∨ remainBuf.length < chunkSizeOf remainBuf then none
    else
      if Entry.checksum (chunkDataOf remainBuf) ≠ (Entry.to_header remainBuf).crc32 then
        some (acc, pageBuf)
      else
        if (Entry.to_header remainBuf).stype = STYPE_FULL ∨
            (Entry.to_header remainBuf).stype = STYPE_LAST then
          if (chunkDatas ++ chunkDataOf remainBuf).length < 8 then none
          else
            handlePageLoop (remainBuf.drop (chunkSizeOf remainBuf))
              (pageBuf.drop (pageChunkSize + chunkSizeOf remainBuf)) [] 0
              (acc ++ [((chunkDatas ++ chunkDataOf remainBuf).take
                  ((chunkDatas ++ chunkDataOf remainBuf).length - 8),
                case_buf_to_u64 ((chunkDatas ++ chunkDataOf remainBuf).drop
                  ((chunkDatas ++ chunkDataOf remainBuf).length - 8)))])
        else
          handlePageLoop (remainBuf.drop (chunkSizeOf remainBuf)) pageBuf
            (chunkDatas ++ chunkDataOf remainBuf) (pageChunkSize + chunkSizeOf remainBuf) acc
termination_by remainBuf.length
decreasing_by
  all_goals simp only [List.length_drop]
  all_goals simp only [HEADER_LEN] at *
  all_goals omega

/-- Modelled from the spec: state::get reads into the page-sized zero-filled
buffer at the given offset and returns the byte count read; the unread tail of
the buffer keeps its zero fill (section 6). -/
def stateGet (file : List Nat) (pos : Nat) : Nat × List Nat :=
  (((file.drop pos).take PAGE_SIZE).length,
   (file.drop pos).take PAGE_SIZE ++
     List.replicate (PAGE_SIZE - ((file.drop pos).take PAGE_SIZE).length) 0)

/-- The page loop of Wlog::read_all: read one page, extend the carried buffer
with the whole page-sized buffer, run handle_page, and stop after the first
short read.  none propagates a handle_page panic. -/
def readAllLoop (file : List Nat) (pos : Nat) (leftBuf : List Nat)
    (acc : List (List Nat × Nat)) : Option (List (List Nat × Nat)) :=
  match handlePageLoop (leftBuf ++ (stateGet file pos).2) (leftBuf ++ (stateGet file pos).2)
      [] 0 [] with
  | none => none
  | some r =>
    if (stateGet file pos).1 < PAGE_SIZE then some (acc ++ r.1)
    else readAllLoop file (pos + PAGE_SIZE) r.2 (acc ++ r.1)
termination_by file.length + PAGE_SIZE - pos
decreasing_by
  simp only [stateGet, List.length_take, List.length_drop] at *
  simp only [PAGE_SIZE] at *
  omega

/-- Wlog::read_all over the file contents of one segment, returning the
(record, version) pairs delivered to the handler in call order. -/
def readAllFile (file : List Nat) : Option (List (List Nat × Nat)) :=
  readAllLoop file 0 [] []

/-- The loop of the else branch of Wal::read_range: skip ids below
min_version, scan each remaining segment in ascending order (Wlog::new opens
or creates the file; reading a created-empty file delivers nothing). -/
def readRangeGo (dir : Dir) (minVersion : Nat) : List Nat → Option (List (List Nat × Nat))
  | [] => some []
  | v :: rest =>
    if v < minVersion then readRangeGo dir minVersion rest
    else
      match readAllFile (dirLookupD dir v) with
      | none => none
      | some recs =>
        match readRangeGo dir minVersion rest with
        | none => none
        | some more => some (recs ++ more)

/-- Wal::read_range: scan just the active segment when its version equals
min_version, else scan every known segment with id at least min_version in
list order. -/
def readRange (w : Wal) (minVersion : Nat) : Option (List (List Nat × Nat)) :=
  if w.wlog.version = minVersion then readAllFile (dirLookupD w.dir w.wlog.version)
  else readRangeGo w.dir minVersion w.log_version_list

/-- Wal::truncate_all: delete every known segment file, then rebuild the whole
Wal state by re-running Wal::new against the same path and copying every
field. -/
def truncateAll (w : Wal) (now : Nat) : Option Wal :=
  walNew (w.log_version_list.foldl (fun d v => dirErase d v) w.dir) now

/-- The state Wal::new builds at an empty directory at time 0; used as the
concrete instance in witnesses. -/
def walEx : Wal :=
  { seq := 0
    file_max_size := 4294967295
    rotation_live_time := 1800
    rotation_time := 0
    wlog := { version := 0, file_size := 0 }
    log_version_list := [0]
    dir := [(0, [])] }

/-- The rotation condition exactly as claim C8 states it: size overflow, or,
with age-based rotation enabled, elapsed time since the active segment became
active exceeding the threshold. -/
def specRotates (bytesToWrite activeSize fileMaxSize rlt elapsedSinceActive : Nat) : Prop :=
  fileMaxSize < bytesToWrite + activeSize ∨ (0 < rlt ∧ rlt < elapsedSinceActive)

/-- C1: the claim states decode(encode(kind, payload)) succeeds with the original
payload and matching checksum.  On the source it fails: Entry::decode returns
InvalidWalData exactly when the computed checksum equals the stored one, so the
round-trip on the empty Full frame yields the error. -/
theorem c1_decode_encode_errors :
    Entry.decode (Entry.encode (Entry.new STYPE_FULL [])) =
      some (Except.error Error.InvalidWalData) := rfl

/-- C2: the claim states Entry::decode signals InvalidFrameData exactly on a
checksum mismatch and succeeds otherwise.  The source has the comparison
inverted: it errors on the well-formed frame encode(Full, [1]) whose checksums
match, and it succeeds on a frame whose stored checksum 1 differs from the
CRC32 of its payload [9]. -/
theorem c2_decode_checksum_inverted :
    Entry.decode (Entry.encode (Entry.new STYPE_FULL [1])) =
        some (Except.error Error.InvalidWalData) ∧
      Entry.decode [0, 0, 0, 1, 0, 1, 4, 9] =
        some (Except.ok { header := { crc32 := 1, dlen := 1, stype := 4 }, payload := [9] }) :=
  ⟨rfl, rfl⟩

/-- Unfolding lemma: the payload concatenation of a cons. -/
theorem framesPayload_cons (f : Nat × List Nat) (rest : List (Nat × List Nat)) :
    framesPayload (f :: rest) = f.2 ++ framesPayload rest := rfl

/-- Every page has at least one free byte: leftPage is positive. -/
theorem leftPage_pos (a : Nat) : 1 ≤ leftPage a := by unfold leftPage PAGE_SIZE; omega

/-- leftPage never exceeds the page size. -/
theorem leftPage_le (a : Nat) : leftPage a ≤ PAGE_SIZE := by unfold leftPage; omega

/-- The fragmentation loop reproduces its input: concatenating the emitted
payloads in emission order gives back the input bytes, for any starting size
and any stype state. -/
theorem framesLoop_payload_concat (activeSize stype : Nat) (buf : List Nat) :
    framesPayload (framesLoop activeSize stype buf) = buf := by
  induction activeSize, stype, buf using framesLoop.induct with
  | case1 a s buf h =>
    rw [framesLoop, if_pos h]
    simp [framesPayload]
  | case2 a s buf h ih =>
    rw [framesLoop, if_neg h]
    rw [framesPayload_cons]
    simp only [dite_eq_ite] at ih
    rw [ih]
    exact List.take_append_drop _ _

/-- C4: for every input byte stream and every starting tracked file size,
concatenating in emission order the payload bytes of all frames produced by
one Wlog::append call reproduces exactly the original input byte stream. -/
theorem c4_fragment_concat (fileSize : Nat) (buf : List Nat) :
    framesPayload (framesLoop fileSize 0 buf) = buf :=
  framesLoop_payload_concat fileSize 0 buf

/-- The loop emits at most one frame more than the number of input bytes:
each non-final iteration consumes at least one byte. -/
theorem framesLoop_length_le (a s : Nat) (buf : List Nat) :
    (framesLoop a s buf).length ≤ buf.length + 1 := by
  induction a, s, buf using framesLoop.induct with
  | case1 a s buf h =>
    rw [framesLoop, if_pos h]
    simp
  | case2 a s buf h ih =>
    rw [framesLoop, if_neg h]
    simp only [dite_eq_ite] at ih
    simp only [List.length_cons, List.length_drop] at ih ⊢
    have h1 := leftPage_pos a
    omega

/-- C9: the fragmentation loop of Wlog::append terminates, emitting at most
buf.length + 1 frames (each non-final iteration strictly shrinks the data by
the remaining page space, which is at least one byte); in the edge case where
the data length exactly equals the remaining page space, it emits the
exact-fill frame followed by one extra zero-length frame of kind Last. -/
theorem c9_fragment_terminates_edge (fileSize : Nat) (buf : List Nat) :
    (framesLoop fileSize 0 buf).length ≤ buf.length + 1 ∧
      (buf.length = leftPage fileSize →
        framesLoop fileSize 0 buf = [(STYPE_FIRST, buf), (STYPE_LAST, [])]) := by
  refine ⟨framesLoop_length_le _ _ _, fun h => ?_⟩
  rw [framesLoop, if_neg (by omega)]
  rw [← h, List.take_length, List.drop_length]
  rw [framesLoop, if_pos (show ([] : List Nat).length < leftPage ((fileSize + buf.length) % 2 ^ 32)
    from leftPage_pos ((fileSize + buf.length) % 2 ^ 32))]
  norm_num [STYPE_FIRST, STYPE_MIDDLE, STYPE_LAST]

/-- Witness for C9 at a concrete input: a buffer exactly filling one page. -/
theorem c9_fragment_terminates_edge_witness :
    framesLoop 0 0 (List.replicate 32768 0) =
      [(STYPE_FIRST, List.replicate 32768 0), (STYPE_LAST, [])] :=
  (c9_fragment_terminates_edge 0 (List.replicate 32768 0)).2
    (by rw [List.length_replicate]; norm_num [leftPage, PAGE_SIZE])

/-- Every payload the loop emits fits in one page. -/
theorem framesLoop_payload_bound (a s : Nat) (buf : List Nat) :
    ∀ f ∈ framesLoop a s buf, f.2.length ≤ PAGE_SIZE := by
  induction a, s, buf using framesLoop.induct with
  | case1 a s buf h =>
    rw [framesLoop, if_pos h]
    intro f hf
    simp only [List.mem_singleton] at hf
    subst hf
    exact le_trans (le_of_lt h) (leftPage_le a)
  | case2 a s buf h ih =>
    rw [framesLoop, if_neg h]
    simp only [dite_eq_ite] at ih
    intro f hf
    rcases List.mem_cons.mp hf with hf | hf
    · subst hf
      simp only [List.length_take]
      exact le_trans (min_le_left _ _) (leftPage_le a)
    · exact ih f hf

/-- C10: every frame emitted by Wlog::append carries a payload of at most one
page (32768 bytes), strictly below 65536, so the u16 cast in Entry::new never
truncates and the declared header length equals the true payload length. -/
theorem c10_frame_length_no_truncation (fileSize : Nat) (buf : List Nat) :
    ∀ f ∈ framesLoop fileSize 0 buf,
      f.2.length ≤ PAGE_SIZE ∧ (Entry.new f.1 f.2).header.dlen = f.2.length := by
  intro f hf
  have hb := framesLoop_payload_bound fileSize 0 buf f hf
  refine ⟨hb, ?_⟩
  have hlt : f.2.length < 65536 := by
    have : PAGE_SIZE = 32768 := rfl
    omega
  simp only [Entry.new]
  exact Nat.mod_eq_of_lt hlt

/-- Witness for C10 at a concrete input: the single Full frame of a one-byte
append into an empty segment. -/
theorem c10_frame_length_no_truncation_witness :
    ([5] : List Nat).length ≤ PAGE_SIZE ∧
      (Entry.new STYPE_FULL [5]).header.dlen = ([5] : List Nat).length := by
  have hmem : (STYPE_FULL, [5]) ∈ framesLoop 0 0 [5] := by
    rw [framesLoop, if_pos (by norm_num [leftPage, PAGE_SIZE])]
    simp
  exact c10_frame_length_no_truncation 0 [5] (STYPE_FULL, [5]) hmem

/-- Shifting the accumulator of cumPayload shifts every cumulative sum. -/
theorem cumPayload_add (c : Nat) : ∀ (l : List (Nat × List Nat)) (d : Nat),
    cumPayload l (c + d) = (cumPayload l d).map (fun e => (e.1, c + e.2))
  | [], _ => rfl
  | f :: r, d => by
    simp only [cumPayload, List.map_cons]
    rw [Nat.add_assoc, cumPayload_add c r (d + f.2.length)]

/-- Alignment invariant of the fragmentation loop: after each First or Middle
frame, the starting size plus the cumulative payload bytes (headers excluded)
sits exactly on a page boundary. -/
theorem framesLoop_aligned (a s : Nat) (buf : List Nat) :
    ∀ e ∈ cumPayload (framesLoop a s buf) 0,
      e.1 = STYPE_FIRST ∨ e.1 = STYPE_MIDDLE → (a + e.2) % PAGE_SIZE = 0 := by
  induction a, s, buf using framesLoop.induct with
  | case1 a s buf h =>
    rw [framesLoop, if_pos h]
    intro e he hk
    simp only [cumPayload, List.mem_singleton] at he
    have h1 : e.1 = if s = 0 then STYPE_FULL else STYPE_LAST := by rw [he]
    rw [h1] at hk
    simp only [STYPE_FULL, STYPE_FIRST, STYPE_MIDDLE, STYPE_LAST] at hk
    rcases hk with hk | hk <;> split at hk <;> exact absurd hk (by decide)
  | case2 a s buf h ih =>
    rw [framesLoop, if_neg h]
    simp only [dite_eq_ite] at ih
    intro e he hk
    have hL : (List.take (leftPage a) buf).length = leftPage a := by
      rw [List.length_take]; omega
    simp only [cumPayload, hL] at he
    rcases List.mem_cons.mp he with he | he
    · subst he
      simp only [Nat.zero_add]
      unfold leftPage PAGE_SIZE
      omega
    · rw [Nat.zero_add, ← Nat.add_zero (leftPage a), cumPayload_add (leftPage a) _ 0] at he
      rcases List.mem_map.mp he with ⟨e0, he0, rfl⟩
      have h0 := ih e0 he0 (by simpa using hk)
      simp only []
      unfold leftPage PAGE_SIZE at h0 ⊢
      omega

/-- Head membership for cumHeaderPayload, stated over an abstract payload list
so it can be instantiated at large literal inputs. -/
theorem mem_cumHeaderPayload_head (k c : Nat) (l : List Nat) (rest : List (Nat × List Nat))
    (h : HEADER_LEN + l.length = c) :
    ((k, c) : Nat × Nat) ∈ cumHeaderPayload ((k, l) :: rest) 0 := by
  simp only [cumHeaderPayload]
  rw [Nat.zero_add, h]
  exact List.mem_cons_self _ _

/-- Head membership for cumPayload, stated over an abstract payload list. -/
theorem mem_cumPayload_head (k c : Nat) (l : List Nat) (rest : List (Nat × List Nat))
    (h : l.length = c) :
    ((k, c) : Nat × Nat) ∈ cumPayload ((k, l) :: rest) 0 := by
  simp only [cumPayload]
  rw [Nat.zero_add, h]
  exact List.mem_cons_self _ _

/-- C6 counterexample: the claim as stated counts header bytes in the cumulative
sum.  Appending 40000 bytes into an empty segment emits a First frame of 32768
payload bytes; header plus payload is 32775 bytes, which is not a multiple of
32768, so the claimed property fails at this concrete input. -/
theorem c6_counterexample :
    ¬ ∀ (fileSize : Nat) (buf : List Nat),
        ∀ e ∈ cumHeaderPayload (framesLoop fileSize 0 buf) 0,
          e.1 = STYPE_FIRST ∨ e.1 = STYPE_MIDDLE → (fileSize + e.2) % PAGE_SIZE = 0 := by
  intro hclaim
  have hframes : framesLoop 0 0 (List.replicate 40000 0) =
      [(STYPE_FIRST, List.replicate 32768 0), (STYPE_LAST, List.replicate 7232 0)] := by
    rw [framesLoop]
    norm_num [leftPage, PAGE_SIZE, List.take_replicate, List.drop_replicate]
    rw [framesLoop]
    norm_num [leftPage, PAGE_SIZE, STYPE_FIRST, STYPE_MIDDLE, STYPE_LAST]
  have hmem : ((STYPE_FIRST, 32775) : Nat × Nat) ∈
      cumHeaderPayload (framesLoop 0 0 (List.replicate 40000 0)) 0 := by
    rw [hframes]
    exact mem_cumHeaderPayload_head STYPE_FIRST 32775 (List.replicate 32768 0) _
      (by rw [List.length_replicate]; norm_num [HEADER_LEN])
  have hc := hclaim 0 (List.replicate 40000 0) (STYPE_FIRST, 32775) hmem (Or.inl rfl)
  norm_num [PAGE_SIZE] at hc

/-- C6 amended: for every single Wlog::append call, the starting tracked file
size plus the cumulative count of payload bytes (headers excluded) of the
frames emitted up to and including each frame of kind First or Middle lands
exactly on a 32768-byte page boundary; the loop advances its page position by
payload bytes only, so header bytes do not participate in page alignment. -/
theorem c6_payload_alignment (fileSize : Nat) (buf : List Nat) :
    ∀ e ∈ cumPayload (framesLoop fileSize 0 buf) 0,
      e.1 = STYPE_FIRST ∨ e.1 = STYPE_MIDDLE → (fileSize + e.2) % PAGE_SIZE = 0 :=
  framesLoop_aligned fileSize 0 buf

/-- Witness for the amended C6 at a concrete input: the First frame of a
one-page append starting at size 0 ends exactly at the page boundary. -/
theorem c6_payload_alignment_witness : (0 + 32768) % PAGE_SIZE = 0 := by
  have hframes : framesLoop 0 0 (List.replicate 32768 0) =
      [(STYPE_FIRST, List.replicate 32768 0), (STYPE_LAST, [])] := by
    rw [framesLoop]
    norm_num [leftPage, PAGE_SIZE, List.take_replicate, List.drop_replicate]
    rw [framesLoop]
    norm_num [leftPage, PAGE_SIZE, STYPE_FIRST, STYPE_MIDDLE, STYPE_LAST]
  have hmem : ((STYPE_FIRST, 32768) : Nat × Nat) ∈
      cumPayload (framesLoop 0 0 (List.replicate 32768 0)) 0 := by
    rw [hframes]
    exact mem_cumPayload_head STYPE_FIRST 32768 (List.replicate 32768 0) _
      (by rw [List.length_replicate])
  exact c6_payload_alignment 0 (List.replicate 32768 0) (STYPE_FIRST, 32768) hmem (Or.inl rfl)

/-- rotation_log never changes the sequence counter. -/
theorem rotationLog_seq (w : Wal) (bufLen now : Nat) :
    (rotationLog w bufLen now).seq = w.seq := by
  unfold rotationLog
  split <;> rfl

/-- Wal::append increments the u64 seq exactly once, whatever the storage
outcome ok. -/
theorem walAppend_seq (w : Wal) (buf : List Nat) (now : Nat) (ok : Bool) :
    (walAppend w buf now ok).1.seq = (w.seq + 1) % 2 ^ 64 := by
  cases ok <;> simp [walAppend, wlogAppend, rotationLog_seq]

/-- With no u64 wrap in range, the stamped sequence values of successive
appends are consecutive from seq + 1 and the final counter advances by the
call count, whatever each call's buffer, time and storage outcome. -/
theorem assignedSeqs_range (calls : List (List Nat × Nat × Bool)) : ∀ (w : Wal),
    w.seq + calls.length < 2 ^ 64 →
    assignedSeqs w calls = List.range' (w.seq + 1) calls.length ∧
      (walAppendMany w calls).seq = w.seq + calls.length := by
  induction calls with
  | nil => exact fun w h => ⟨rfl, rfl⟩
  | cons c rest ih =>
    intro w h
    simp only [List.length_cons] at h
    have hseq : (walAppend w c.1 c.2.1 c.2.2).1.seq = w.seq + 1 := by
      rw [walAppend_seq]
      exact Nat.mod_eq_of_lt (by omega)
    have hrec := ih (walAppend w c.1 c.2.1 c.2.2).1 (by rw [hseq]; omega)
    constructor
    · rw [assignedSeqs, List.length_cons, List.range'_succ]
      congr 1
      · exact Nat.mod_eq_of_lt (by omega)
      · rw [hrec.1, hseq]
    · rw [walAppendMany, hrec.2, hseq, List.length_cons]
      omega

/-- C7: every Wal::append increments seq exactly once before the physical
write and keeps the incremented value even when the segment append fails (the
error propagates with no rollback); over any call sequence without u64 wrap,
the assigned sequence values are consecutive, hence strictly increasing and
never repeated, while failed appends leave gaps (their value is consumed). -/
theorem c7_seq_increment_monotonic (w : Wal) (buf : List Nat) (now : Nat) (ok : Bool)
    (calls : List (List Nat × Nat × Bool)) (h : w.seq + calls.length < 2 ^ 64) :
    (walAppend w buf now ok).1.seq = (w.seq + 1) % 2 ^ 64 ∧
      (walAppend w buf now false).2 = Except.error Error.AppendWalDataFailed ∧
      assignedSeqs w calls = List.range' (w.seq + 1) calls.length ∧
      (walAppendMany w calls).seq = w.seq + calls.length ∧
      (assignedSeqs w calls).Pairwise (fun x y => x < y) := by
  obtain ⟨h1, h2⟩ := assignedSeqs_range calls w h
  refine ⟨walAppend_seq w buf now ok, ?_, h1, h2, ?_⟩
  · simp [walAppend, wlogAppend]
  · rw [h1]
    exact List.pairwise_lt_range' _ _ 1 (by norm_num)

/-- Witness for C7 at a concrete input: two appends on the freshly constructed
Wal (one succeeding, one failing) stamp the values 1 and 2. -/
theorem c7_seq_increment_monotonic_witness :
    assignedSeqs walEx [([], 0, true), ([], 0, false)] = List.range' 1 2 :=
  (c7_seq_increment_monotonic walEx [] 0 true [([], 0, true), ([], 0, false)]
    (by norm_num [walEx])).2.2.1

/-- Writing one file leaves every other file unchanged. -/
theorem dirLookup_insert_ne (n : Nat) (v : List Nat) (k : Nat) (h : k ≠ n) : ∀ (d : Dir),
    dirLookup (dirInsert d n v) k = dirLookup d k
  | [] => by simp [dirInsert, dirLookup, Ne.symm h]
  | (k0, w0) :: rest => by
    simp only [dirInsert]
    by_cases hk : k0 = n
    · rw [if_pos hk]
      subst hk
      simp [dirLookup, Ne.symm h]
    · rw [if_neg hk]
      simp only [dirLookup]
      by_cases hk2 : k0 = k
      · rw [if_pos hk2, if_pos hk2]
      · rw [if_neg hk2, if_neg hk2]
        exact dirLookup_insert_ne n v k h rest

/-- Opening or creating one segment file leaves every other file unchanged. -/
theorem wlogNew_lookup_ne (d : Dir) (s k : Nat) (h : k ≠ s) :
    dirLookup (wlogNew d s).1 k = dirLookup d k := by
  unfold wlogNew
  split
  · rfl
  · exact dirLookup_insert_ne s [] k h d

/-- The version field of the segment opened by Wlog::new. -/
theorem wlogNew_version (d : Dir) (s : Nat) : (wlogNew d s).2.version = s := by
  unfold wlogNew
  split <;> rfl

/-- The suffixed buffer is eight bytes longer than the input. -/
theorem flateBuf_length (buf : List Nat) (x : Nat) :
    (buf ++ case_u64_to_buf x).length = buf.length + 8 := by
  simp [case_u64_to_buf]

/-- rotation_log when the rotation condition of the source holds. -/
theorem rotationLog_pos (w : Wal) (bufLen now : Nat)
    (hc : w.file_max_size < bufLen + w.wlog.file_size ∨
      (0 < w.rotation_live_time ∧ w.rotation_live_time < now - w.rotation_time)) :
    rotationLog w bufLen now =
      { w with log_version_list := w.log_version_list ++ [w.seq]
               wlog := (wlogNew w.dir w.seq).2
               dir := (wlogNew w.dir w.seq).1 } := by
  rw [rotationLog, if_pos hc]

/-- rotation_log when the rotation condition of the source fails. -/
theorem rotationLog_neg (w : Wal) (bufLen now : Nat)
    (hc : ¬ (w.file_max_size < bufLen + w.wlog.file_size ∨
      (0 < w.rotation_live_time ∧ w.rotation_live_time < now - w.rotation_time))) :
    rotationLog w bufLen now = w := by
  rw [rotationLog, if_neg hc]

/-- Observable effects of one Wal::append when the source's rotation condition
holds (with the incremented seq written s1): the id list gains s1, the active
segment becomes s1, the rotation clock is NOT reset, and no file other than s1
changes. -/
theorem walAppend_rot_effects (w : Wal) (buf : List Nat) (now : Nat) (ok : Bool)
    (hc : w.file_max_size < buf.length + 8 + w.wlog.file_size ∨
      (0 < w.rotation_live_time ∧ w.rotation_live_time < now - w.rotation_time)) :
    (walAppend w buf now ok).1.log_version_list
        = w.log_version_list ++ [(w.seq + 1) % 2 ^ 64] ∧
      (walAppend w buf now ok).1.wlog.version = (w.seq + 1) % 2 ^ 64 ∧
      (walAppend w buf now ok).1.rotation_time = w.rotation_time ∧
      ∀ v, v ≠ (w.seq + 1) % 2 ^ 64 →
        dirLookup (walAppend w buf now ok).1.dir v = dirLookup w.dir v := by
  simp only [walAppend, flateBuf_length]
  rw [rotationLog_pos { w with seq := (w.seq + 1) % 2 ^ 64 } (buf.length + 8) now hc]
  cases ok
  · refine ⟨by simp, by simp [wlogAppend, wlogNew_version], by simp, fun v hv => ?_⟩
    simp only [wlogAppend, Bool.false_eq_true, if_false]
    exact wlogNew_lookup_ne _ _ _ hv
  · refine ⟨by simp, by simp [wlogAppend, wlogNew_version], by simp, fun v hv => ?_⟩
    simp only [wlogAppend, if_true]
    rw [wlogNew_version]
    rw [dirLookup_insert_ne _ _ _ hv, wlogNew_lookup_ne _ _ _ hv]

/-- Observable effects of one Wal::append when the source's rotation condition
fails: id list, active segment id and rotation clock all unchanged. -/
theorem walAppend_norot_effects (w : Wal) (buf : List Nat) (now : Nat) (ok : Bool)
    (hc : ¬ (w.file_max_size < buf.length + 8 + w.wlog.file_size ∨
      (0 < w.rotation_live_time ∧ w.rotation_live_time < now - w.rotation_time))) :
    (walAppend w buf now ok).1.log_version_list = w.log_version_list ∧
      (walAppend w buf now ok).1.wlog.version = w.wlog.version ∧
      (walAppend w buf now ok).1.rotation_time = w.rotation_time := by
  simp only [walAppend, flateBuf_length]
  rw [rotationLog_neg { w with seq := (w.seq + 1) % 2 ^ 64 } (buf.length + 8) now hc]
  cases ok
  · exact ⟨by simp [wlogAppend], by simp [wlogAppend], by simp [wlogAppend]⟩
  · exact ⟨by simp [wlogAppend], by simp [wlogAppend], by simp [wlogAppend]⟩

/-- C8 amended: the Log rotates exactly when
(bytes-to-write + active size) > file_max_size or when rotation_live_time > 0
and the time elapsed since rotation_time exceeds it, where rotation_time is
set at construction (and by truncate_all) and never reset by rotation itself;
rotation records the incremented seq in the id list and opens the segment
whose id is that seq, and the append then writes no file other than that
segment. -/
theorem c8_rotation_policy (w : Wal) (buf : List Nat) (now : Nat) (ok : Bool) :
    ((w.file_max_size < buf.length + 8 + w.wlog.file_size ∨
        (0 < w.rotation_live_time ∧ w.rotation_live_time < now - w.rotation_time)) →
      (walAppend w buf now ok).1.log_version_list
          = w.log_version_list ++ [(w.seq + 1) % 2 ^ 64] ∧
        (walAppend w buf now ok).1.wlog.version = (w.seq + 1) % 2 ^ 64 ∧
        (walAppend w buf now ok).1.rotation_time = w.rotation_time ∧
        ∀ v, v ≠ (w.seq + 1) % 2 ^ 64 →
          dirLookup (walAppend w buf now ok).1.dir v = dirLookup w.dir v) ∧
      (¬ (w.file_max_size < buf.length + 8 + w.wlog.file_size ∨
          (0 < w.rotation_live_time ∧ w.rotation_live_time < now - w.rotation_time)) →
        (walAppend w buf now ok).1.log_version_list = w.log_version_list ∧
          (walAppend w buf now ok).1.wlog.version = w.wlog.version ∧
          (walAppend w buf now ok).1.rotation_time = w.rotation_time) :=
  ⟨fun hc => walAppend_rot_effects w buf now ok hc,
   fun hc => walAppend_norot_effects w buf now ok hc⟩

/-- Witness for the amended C8 at a concrete input: on the fresh Wal with
file_max_size lowered to 0, an append overflows and rotates, recording id 1. -/
theorem c8_rotation_policy_witness :
    (walAppend { walEx with file_max_size := 0 } [] 0 true).1.log_version_list = [0, 1] := by
  have h := ((c8_rotation_policy { walEx with file_max_size := 0 } [] 0 true).1
    (Or.inl (by norm_num [walEx]))).1
  rw [h]
  norm_num [walEx]

/-- One encoded frame is seven header bytes plus its payload. -/
theorem encode_length (e : Entry) : e.encode.length = 7 + e.payload.length := by
  simp [Entry.encode, Entry.to_header_buf, u32ToBeBytes, u16ToBeBytes]
  omega

/-- A buffer shorter than the remaining page space yields one Full frame. -/
theorem framesLoop_full (a : Nat) (buf : List Nat) (h : buf.length < leftPage a) :
    framesLoop a 0 buf = [(STYPE_FULL, buf)] := by
  rw [framesLoop, if_pos h]
  norm_num

/-- Wal::append changes neither file_max_size nor rotation_live_time. -/
theorem walAppend_const_fields (w : Wal) (buf : List Nat) (now : Nat) (ok : Bool) :
    (walAppend w buf now ok).1.file_max_size = w.file_max_size ∧
      (walAppend w buf now ok).1.rotation_live_time = w.rotation_live_time := by
  cases ok <;> simp [walAppend, wlogAppend, rotationLog, apply_ite]

/-- C8 counterexample: starting from the Wal that Wal::new builds at an empty
directory at time 0, an append at time 2000 rotates by age (2000 - 0 exceeds
the 1800-second threshold), so segment 1 becomes active at time 2000 holding a
15-byte frame; a second append at the same time 2000 rotates AGAIN (id list
[0, 1, 2]) because rotation_log still measures from rotation_time = 0, the
construction time, although the claim's condition — 8 bytes to write plus
size 15 not exceeding file_max_size, and zero elapsed time since segment 1
became active — forbids a rotation there. -/
theorem c8_counterexample :
    walNew [] 0 = some walEx ∧
      (walAppend walEx [] 2000 true).1.wlog.file_size = 15 ∧
      (walAppend walEx [] 2000 true).1.wlog.version = 1 ∧
      (walAppendMany walEx [([], 2000, true), ([], 2000, true)]).log_version_list = [0, 1, 2] ∧
      ¬ specRotates 8 15 4294967295 1800 0 := by
  have hc1 : walEx.file_max_size < ([] : List Nat).length + 8 + walEx.wlog.file_size ∨
      (0 < walEx.rotation_live_time ∧ walEx.rotation_live_time < 2000 - walEx.rotation_time) :=
    Or.inr (by norm_num [walEx])
  obtain ⟨hl1, hv1, hrt1, _⟩ := walAppend_rot_effects walEx [] 2000 true hc1
  refine ⟨rfl, ?_, ?_, ?_, ?_⟩
  · simp only [walAppend, flateBuf_length]
    rw [rotationLog_pos { walEx with seq := (walEx.seq + 1) % 2 ^ 64 }
      (([] : List Nat).length + 8) 2000 hc1]
    norm_num [walEx, wlogNew, dirLookup, dirInsert, dirLookupD, wlogAppend, case_u64_to_buf,
      framesLoop_full, leftPage, PAGE_SIZE, encode_length, Entry.new]
  · rw [hv1]
    norm_num [walEx]
  · rw [walAppendMany, walAppendMany, walAppendMany]
    have hc2 : (walAppend walEx [] 2000 true).1.file_max_size <
        ([] : List Nat).length + 8 + (walAppend walEx [] 2000 true).1.wlog.file_size ∨
        (0 < (walAppend walEx [] 2000 true).1.rotation_live_time ∧
          (walAppend walEx [] 2000 true).1.rotation_live_time <
            2000 - (walAppend walEx [] 2000 true).1.rotation_time) := by
      refine Or.inr ⟨?_, ?_⟩
      · rw [(walAppend_const_fields walEx [] 2000 true).2]
        norm_num [walEx]
      · rw [(walAppend_const_fields walEx [] 2000 true).2, hrt1]
        norm_num [walEx]
    obtain ⟨hl2, _, _, _⟩ := walAppend_rot_effects (walAppend walEx [] 2000 true).1 [] 2000 true hc2
    rw [hl2, hl1, walAppend_seq]
    norm_num [walEx]
  · norm_num [specRotates]

/-- C3: the claim states that during the recovery scan a frame whose declared
size exceeds the remaining bytes makes the scan stop quietly with no error and
no abort.  On the source, handle_page slices remain_buf[7..chunk_size] without
any bound check, so a segment whose first header declares a 50000-byte payload
(bytes [0,0,0,0,195,80,1]; 195*256+80 = 50000) makes read_all panic — the
model returns none — instead of stopping quietly. -/
theorem c3_read_all_aborts : readAllFile [0, 0, 0, 0, 195, 80, 1] = none := by
  have hpad : (stateGet [0, 0, 0, 0, 195, 80, 1] 0).2 =
      [0, 0, 0, 0, 195, 80, 1] ++ List.replicate 32761 0 := rfl
  have hlen : (([0, 0, 0, 0, 195, 80, 1] : List Nat) ++ List.replicate 32761 0).length
      = 32768 := by
    rw [List.length_append, List.length_replicate]
    rfl
  have hheader : Entry.to_header (([0, 0, 0, 0, 195, 80, 1] : List Nat) ++
      List.replicate 32761 0) = { crc32 := 0, dlen := 50000, stype := 1 } := rfl
  have hcs : chunkSizeOf (([0, 0, 0, 0, 195, 80, 1] : List Nat) ++ List.replicate 32761 0)
      = 50007 := by
    simp only [chunkSizeOf, hheader]
    norm_num [HEADER_LEN]
  have hhp : handlePageLoop (([0, 0, 0, 0, 195, 80, 1] : List Nat) ++ List.replicate 32761 0)
      (([0, 0, 0, 0, 195, 80, 1] : List Nat) ++ List.replicate 32761 0) [] 0 [] = none := by
    rw [handlePageLoop, hcs, hlen]
    rw [if_neg (show ¬ (32768 ≤ HEADER_LEN) by norm_num [HEADER_LEN])]
    rw [if_pos (show 50007 < HEADER_LEN ∨ 32768 < 50007 from Or.inr (by norm_num))]
  unfold readAllFile
  rw [readAllLoop, List.nil_append, hpad, hhp]

/-- One CRC bit step keeps the state below 2 ^ 32. -/
theorem crcStepBit_lt (c : Nat) (h : c < 2 ^ 32) : crcStepBit c < 2 ^ 32 := by
  unfold crcStepBit
  split
  · exact Nat.xor_lt_two_pow (by omega) (by norm_num [crcPoly])
  · omega

/-- Iterated CRC bit steps keep the state below 2 ^ 32. -/
theorem crcBits_lt (n : Nat) : ∀ (c : Nat), c < 2 ^ 32 → crcBits n c < 2 ^ 32 := by
  induction n with
  | zero => exact fun c h => h
  | succ n ih => exact fun c h => ih (crcStepBit c) (crcStepBit_lt c h)

/-- Absorbing a byte keeps the CRC state below 2 ^ 32. -/
theorem crcStepByte_lt (c b : Nat) (h : c < 2 ^ 32) : crcStepByte c b < 2 ^ 32 :=
  crcBits_lt 8 _ (Nat.xor_lt_two_pow h (by omega))

/-- The CRC32 checksum is a u32 value. -/
theorem checksum_lt (buf : List Nat) : Entry.checksum buf < 2 ^ 32 := by
  unfold Entry.checksum
  refine Nat.xor_lt_two_pow ?_ (by norm_num)
  have hfold : ∀ (l : List Nat) (c : Nat), c < 2 ^ 32 → List.foldl crcStepByte c l < 2 ^ 32 := by
    intro l
    induction l with
    | nil => exact fun c h => h
    | cons b rest ih => exact fun c h => ih (crcStepByte c b) (crcStepByte_lt c b h)
  exact hfold buf _ (by norm_num)

/-- The big-endian u32 reader inverts the writer up to the u32 range. -/
theorem case_buf_to_u32_be (x : Nat) :
    case_buf_to_u32 [x / 2 ^ 24 % 256, x / 2 ^ 16 % 256, x / 2 ^ 8 % 256, x % 256]
      = x % 2 ^ 32 := by
  simp [case_buf_to_u32]
  omega

/-- The big-endian u16 reader inverts the writer up to the u16 range. -/
theorem case_buf_to_u16_be (x : Nat) :
    case_buf_to_u16 [x / 2 ^ 8 % 256, x % 256] = x % 2 ^ 16 := by
  simp [case_buf_to_u16]
  omega

/-- The little-endian u64 reader inverts the writer up to the u64 range. -/
theorem case_buf_to_u64_le (x : Nat) :
    case_buf_to_u64 (case_u64_to_buf x) = x % 2 ^ 64 := by
  simp [case_buf_to_u64, case_u64_to_buf]
  omega

/-- Indexing into a zero-filled list always yields the zero default. -/
theorem getD_replicate_zero : ∀ (k m : Nat), (List.replicate k (0 : Nat)).getD m 0 = 0
  | 0, _ => rfl
  | _ + 1, 0 => rfl
  | k + 1, m + 1 => getD_replicate_zero k m

/-- Zero filler parses as an endless run of zero-length frames with matching
zero checksums and kind 0: handle_page consumes it seven bytes at a time,
delivering nothing and leaving the caller's buffer untouched. -/
theorem handlePage_zeros (n : Nat) :
    ∀ (pb cds : List Nat) (pcs : Nat) (acc : List (List Nat × Nat)),
    handlePageLoop (List.replicate n 0) pb cds pcs acc = some (acc, pb) := by
  induction n using Nat.strong_induction_on with
  | _ n ih =>
    intro pb cds pcs acc
    by_cases h7 : n ≤ 7
    · rw [handlePageLoop,
        if_pos (show (List.replicate n (0 : Nat)).length ≤ HEADER_LEN by
          rw [List.length_replicate]; exact h7)]
    · have hh : Entry.to_header (List.replicate n 0) = { crc32 := 0, dlen := 0, stype := 0 } := by
        have h4 : (4 : Nat) ⊓ n = 4 := by omega
        have h2 : (2 : Nat) ⊓ (n - 4) = 2 := by omega
        simp only [Entry.to_header, List.take_replicate, List.drop_replicate, h4, h2,
          getD_replicate_zero]
        rfl
      have hcs : chunkSizeOf (List.replicate n 0) = 7 := by
        simp only [chunkSizeOf, hh]
        rfl
      have hcd : chunkDataOf (List.replicate n 0) = [] := by
        simp only [chunkDataOf, hcs, List.take_replicate]
        rw [show (7 : Nat) ⊓ n = 7 by omega]
        rfl
      rw [handlePageLoop, hcs, hcd, hh, List.length_replicate]
      rw [if_neg (show ¬ (n ≤ HEADER_LEN) from h7)]
      rw [if_neg (show ¬ ((7 : Nat) < HEADER_LEN ∨ n < 7) by norm_num [HEADER_LEN]; omega)]
      rw [if_neg (show ¬ (Entry.checksum [] ≠
        ({ crc32 := 0, dlen := 0, stype := 0 } : Header).crc32) by decide)]
      rw [if_neg (show ¬ (({ crc32 := 0, dlen := 0, stype := 0 } : Header).stype = STYPE_FULL ∨
        ({ crc32 := 0, dlen := 0, stype := 0 } : Header).stype = STYPE_LAST) by decide)]
      rw [List.drop_replicate, List.append_nil]
      exact ih (n - 7) (by omega) pb cds (pcs + 7) acc

/-- The encoded frame written out as an explicit byte list. -/
theorem encode_cons (stype : Nat) (p : List Nat) :
    (Entry.new stype p).encode =
      Entry.checksum p / 2 ^ 24 % 256 :: Entry.checksum p / 2 ^ 16 % 256 ::
        Entry.checksum p / 2 ^ 8 % 256 :: Entry.checksum p % 256 ::
        p.length % 65536 / 2 ^ 8 % 256 :: p.length % 65536 % 256 :: stype :: p := rfl

/-- Parsing a header off an explicit seven-byte prefix. -/
theorem to_header_cons (b0 b1 b2 b3 b4 b5 s : Nat) (rest : List Nat) :
    Entry.to_header (b0 :: b1 :: b2 :: b3 :: b4 :: b5 :: s :: rest) =
      { crc32 := case_buf_to_u32 [b0, b1, b2, b3]
        dlen := case_buf_to_u16 [b4, b5]
        stype := s } := rfl

/-- Slicing the chunk data out of an explicitly headed buffer. -/
theorem chunkData_explicit (b0 b1 b2 b3 b4 b5 s : Nat) (rest : List Nat) (m : Nat) :
    ((b0 :: b1 :: b2 :: b3 :: b4 :: b5 :: s :: rest).take (m + 7)).drop 7 = rest.take m := rfl

/-- Dropping a chunk off an explicitly headed buffer. -/
theorem drop_explicit (b0 b1 b2 b3 b4 b5 s : Nat) (rest : List Nat) (m : Nat) :
    (b0 :: b1 :: b2 :: b3 :: b4 :: b5 :: s :: rest).drop (m + 7) = rest.drop m := rfl

/-- Running handle_page over one well-formed Full or Last frame followed by
zero filler delivers exactly one record: the payload minus its final eight
bytes, paired with the little-endian decoding of those eight bytes. -/
theorem handlePage_frame (b0 b1 b2 b3 b4 b5 st : Nat) (p : List Nat) (n : Nat) (pb : List Nat)
    (hcrc : case_buf_to_u32 [b0, b1, b2, b3] = Entry.checksum p)
    (hdlen : case_buf_to_u16 [b4, b5] = p.length)
    (h8 : 8 ≤ p.length) (hmax : p.length ≤ 65528)
    (hst : st = STYPE_FULL ∨ st = STYPE_LAST) :
    handlePageLoop (b0 :: b1 :: b2 :: b3 :: b4 :: b5 :: st :: (p ++ List.replicate n 0))
        pb [] 0 [] =
      some ([(p.take (p.length - 8), case_buf_to_u64 (p.drop (p.length - 8)))],
        pb.drop (p.length + 7)) := by
  have hlen : (b0 :: b1 :: b2 :: b3 :: b4 :: b5 :: st :: (p ++ List.replicate n 0)).length
      = p.length + n + 7 := by
    simp only [List.length_cons, List.length_append, List.length_replicate]
  have hth : Entry.to_header (b0 :: b1 :: b2 :: b3 :: b4 :: b5 :: st ::
      (p ++ List.replicate n 0)) = { crc32 := Entry.checksum p, dlen := p.length, stype := st } := by
    rw [to_header_cons, hcrc, hdlen]
  have hcs : chunkSizeOf (b0 :: b1 :: b2 :: b3 :: b4 :: b5 :: st ::
      (p ++ List.replicate n 0)) = p.length + 7 := by
    simp only [chunkSizeOf, hth, HEADER_LEN]
    omega
  have hcd : chunkDataOf (b0 :: b1 :: b2 :: b3 :: b4 :: b5 :: st ::
      (p ++ List.replicate n 0)) = p := by
    simp only [chunkDataOf, hcs, HEADER_LEN]
    rw [chunkData_explicit]
    exact List.take_left p _
  rw [handlePageLoop, hcs, hcd, hth, hlen]
  dsimp only
  rw [if_neg (show ¬ (p.length + n + 7 ≤ HEADER_LEN) by simp only [HEADER_LEN]; omega)]
  rw [if_neg (show ¬ (p.length + 7 < HEADER_LEN ∨ p.length + n + 7 < p.length + 7) by
    simp only [HEADER_LEN]; omega)]
  rw [if_neg (show ¬ (Entry.checksum p ≠ Entry.checksum p) by simp)]
  rw [if_pos hst]
  simp only [List.nil_append]
  rw [if_neg (show ¬ (p.length < 8) by omega)]
  rw [drop_explicit, List.drop_left, Nat.zero_add]
  exact handlePage_zeros n (pb.drop (p.length + 7)) [] 0 _

/-- handle_page over an encoded Full or Last frame followed by zero filler. -/
theorem handlePage_single (st : Nat) (p : List Nat) (n : Nat) (pb : List Nat)
    (h8 : 8 ≤ p.length) (hmax : p.length ≤ 65528)
    (hst : st = STYPE_FULL ∨ st = STYPE_LAST) :
    handlePageLoop ((Entry.new st p).encode ++ List.replicate n 0) pb [] 0 [] =
      some ([(p.take (p.length - 8), case_buf_to_u64 (p.drop (p.length - 8)))],
        pb.drop (p.length + 7)) := by
  rw [encode_cons]
  simp only [List.cons_append]
  exact handlePage_frame _ _ _ _ _ _ st p n pb
    (by rw [case_buf_to_u32_be]; exact Nat.mod_eq_of_lt (checksum_lt p))
    (by rw [case_buf_to_u16_be]; omega)
    h8 hmax hst

/-- read_all of a file shorter than one page: a single padded page read runs
handle_page once and delivers its records (or propagates its panic). -/
theorem readAllFile_short (file : List Nat) (h : file.length < PAGE_SIZE) :
    readAllFile file =
      Option.map (fun r => r.1)
        (handlePageLoop (file ++ List.replicate (PAGE_SIZE - file.length) 0)
          (file ++ List.replicate (PAGE_SIZE - file.length) 0) [] 0 []) := by
  have hsg1 : (stateGet file 0).1 = file.length := by
    simp only [stateGet, List.drop_zero, List.length_take]
    omega
  have hsg2 : (stateGet file 0).2 = file ++ List.replicate (PAGE_SIZE - file.length) 0 := by
    simp only [stateGet, List.drop_zero, List.length_take]
    rw [List.take_of_length_le (le_of_lt h)]
    have hmin : PAGE_SIZE ⊓ file.length = file.length := by omega
    rw [hmin]
  unfold readAllFile
  rw [readAllLoop, hsg2, hsg1, List.nil_append]
  cases hm : handlePageLoop (file ++ List.replicate (PAGE_SIZE - file.length) 0)
      (file ++ List.replicate (PAGE_SIZE - file.length) 0) [] 0 [] with
  | none => rfl
  | some r =>
    dsimp only
    rw [if_pos h]
    simp

/-- C5: constructing a Log at an empty path, calling truncate_all, then
appending twenty bytes of 3 succeeds, and read_range(0) delivers exactly one
record whose data is the twenty bytes of 3 and whose version is 1. -/
theorem c5_truncate_append_read :
    walNew [] 0 = some walEx ∧
      truncateAll walEx 0 = some walEx ∧
      (walAppend walEx (List.replicate 20 3) 0 true).2 = Except.ok () ∧
      readRange (walAppend walEx (List.replicate 20 3) 0 true).1 0 =
        some [(List.replicate 20 3, 1)] := by
  refine ⟨rfl, rfl, by simp [walAppend, wlogAppend], ?_⟩
  have hw2 : (walAppend walEx (List.replicate 20 3) 0 true).1 =
      { walEx with
          seq := 1
          wlog := { version := 0, file_size := 35 }
          dir := [(0, (Entry.new STYPE_FULL
            (List.replicate 20 3 ++ case_u64_to_buf 1)).encode)] } := by
    simp only [walAppend, flateBuf_length]
    rw [rotationLog_neg { walEx with seq := (walEx.seq + 1) % 2 ^ 64 }
      ((List.replicate 20 (3 : Nat)).length + 8) 0 (by norm_num [walEx])]
    norm_num [walEx, wlogAppend, wlogNew, dirInsert, dirLookup, dirLookupD, framesLoop_full,
      leftPage, PAGE_SIZE, case_u64_to_buf, List.length_append, List.length_replicate,
      Entry.new, Entry.encode, Entry.to_header_buf, u32ToBeBytes, u16ToBeBytes]
  rw [hw2]
  show readAllFile ((Entry.new STYPE_FULL
      (List.replicate 20 3 ++ case_u64_to_buf 1)).encode) = some [(List.replicate 20 3, 1)]
  have hplen : (List.replicate 20 (3 : Nat) ++ case_u64_to_buf 1).length = 28 := by
    simp [case_u64_to_buf]
  have hpay : (Entry.new STYPE_FULL (List.replicate 20 3 ++ case_u64_to_buf 1)).payload
      = List.replicate 20 3 ++ case_u64_to_buf 1 := rfl
  have henclen : (Entry.new STYPE_FULL
      (List.replicate 20 3 ++ case_u64_to_buf 1)).encode.length = 35 := by
    rw [encode_length, hpay, hplen]
  rw [readAllFile_short _ (by rw [henclen]; norm_num [PAGE_SIZE])]
  rw [henclen, show PAGE_SIZE - 35 = 32733 from by norm_num [PAGE_SIZE]]
  rw [handlePage_single STYPE_FULL (List.replicate 20 3 ++ case_u64_to_buf 1) 32733 _
    (by rw [hplen]; norm_num) (by rw [hplen]; norm_num) (Or.inl rfl)]
  have htake : (List.replicate 20 (3 : Nat) ++ case_u64_to_buf 1).take
      ((List.replicate 20 (3 : Nat) ++ case_u64_to_buf 1).length - 8) = List.replicate 20 3 := by
    rw [hplen, show (28 : Nat) - 8 = (List.replicate 20 (3 : Nat)).length from by simp]
    exact List.take_left _ _
  have hdrop : (List.replicate 20 (3 : Nat) ++ case_u64_to_buf 1).drop
      ((List.replicate 20 (3 : Nat) ++ case_u64_to_buf 1).length - 8) = case_u64_to_buf 1 := by
    rw [hplen, show (28 : Nat) - 8 = (List.replicate 20 (3 : Nat)).length from by simp]
    exact List.drop_left _ _
  rw [htake, hdrop, case_buf_to_u64_le]
  rfl
